import Mathlib

/-!
# Particle background of `js/case-study-premium.js`

A shallow embedding of the animated particle background (section 1 of the
`DOMContentLoaded` handler) and of the `debounce` helper.

Numbers: JavaScript numbers are modelled by exact rationals `ℚ`; the canvas
dimensions, which the DOM stores as unsigned integers, are naturals where the
code reads them from the canvas. `Math.random` is a stream `rand : ℕ → ℚ`
read through a counter, `Math.sqrt` is a parameter `sqrt : ℚ → ℚ`, and the
host's timers and frame clock are explicit queues of pending callbacks.
-/

namespace CaseStudyPremium

/-! ## Particles -/

/-- One particle: the six fields assigned by the constructor of `class Particle`. -/
structure Particle where
  x : ℚ
  y : ℚ
  size : ℚ
  speedX : ℚ
  speedY : ℚ
  opacity : ℚ
  deriving DecidableEq, Repr

/-- The constructor of `class Particle`: six consecutive draws of `Math.random`,
the draws number `k`, ..., `k + 5` of the stream `rand`, on a canvas `w` by `h`. -/
def Particle.new (w h : ℚ) (rand : ℕ → ℚ) (k : ℕ) : Particle :=
  { x := rand k * w
    y := rand (k + 1) * h
    size := rand (k + 2) * 2 + 1 / 2
    speedX := (rand (k + 3) - 1 / 2) * (1 / 2)
    speedY := (rand (k + 4) - 1 / 2) * (1 / 2)
    opacity := rand (k + 5) * (1 / 2) + 1 / 5 }

/-- The method `Particle.update` on a canvas `w` by `h`: add the velocity, then the
four `if` statements in source order. -/
def Particle.update (w h : ℚ) (p : Particle) : Particle :=
  let x₁ := p.x + p.speedX
  let y₁ := p.y + p.speedY
  let x₂ := if x₁ > w then 0 else x₁
  let x₃ := if x₂ < 0 then w else x₂
  let y₂ := if y₁ > h then 0 else y₁
  let y₃ := if y₂ < 0 then h else y₂
  { p with x := x₃, y := y₃ }

/-- The particle after `n` calls of `update`. -/
def Particle.updateN (w h : ℚ) : ℕ → Particle → Particle
  | 0, p => p
  | n + 1, p => Particle.updateN w h n (Particle.update w h p)

/-- A stream in which every draw is `0`. -/
def zeroDraws : ℕ → ℚ := fun _ => 0

/-- A stream in which every draw is `1/2`. -/
def halfDraws : ℕ → ℚ := fun _ => 1 / 2

/-- A stand-in for `Math.sqrt` on concrete inputs: the integer square root of the integer
part. -/
def floorSqrt (q : ℚ) : ℚ := (Nat.sqrt (q.num.toNat / q.den) : ℕ)

/-! ## The 2D drawing context -/

/-- The calls made on the 2D context `ctx`, in the order they are made. The colour of
`fillStyle` and `strokeStyle` is always `rgba(103, 102, 255, alpha)`, so only `alpha` is
kept; `arc` is always drawn from angle `0` to `2π`. -/
inductive Cmd where
  | clearRect (x y w h : ℚ)
  | fillStyle (alpha : ℚ)
  | strokeStyle (alpha : ℚ)
  | lineWidth (v : ℚ)
  | beginPath
  | arc (x y r : ℚ)
  | fill
  | moveTo (x y : ℚ)
  | lineTo (x y : ℚ)
  | stroke
  deriving DecidableEq, Repr

/-- The method `Particle.draw`. -/
def Particle.draw (p : Particle) : List Cmd :=
  [Cmd.fillStyle p.opacity, Cmd.beginPath, Cmd.arc p.x p.y p.size, Cmd.fill]

/-! ## Component state -/

/-- What the closure of the particle background holds and what the host holds for it:
the canvas dimensions, `particles`, `animationId`, the number of `Math.random` draws
consumed so far, the frame clock (next fresh handle and the handles of the pending
callbacks, all of which are `animate`), and the calls made on `ctx`. The last three
fields are bookkeeping only: the number of frames that `animate` has stepped and drawn,
the handles whose
callback has run, and the handles given to `cancelAnimationFrame`. -/
structure State where
  width : ℕ
  height : ℕ
  particles : List Particle
  animationId : Option ℕ
  draws : ℕ
  nextHandle : ℕ
  pendingFrames : List ℕ
  canvasLog : List Cmd
  frames : ℕ
  ran : List ℕ
  cancelled : List ℕ
  deriving DecidableEq, Repr

/-- The state when the `DOMContentLoaded` handler starts: `particles = []`, `animationId`
undefined, a canvas of size 0 by 0, nothing drawn and nothing scheduled. -/
def State.initial : State :=
  { width := 0, height := 0, particles := [], animationId := none, draws := 0,
    nextHandle := 0, pendingFrames := [], canvasLog := [], frames := 0, ran := [],
    cancelled := [] }

/-- What `resizeCanvas` reads: `window.innerWidth` and
`document.documentElement.scrollHeight`. -/
structure Viewport where
  innerWidth : ℕ
  scrollHeight : ℕ
  deriving DecidableEq, Repr

/-- The function `resizeCanvas`. -/
def resizeCanvas (v : Viewport) (s : State) : State :=
  { s with width := v.innerWidth, height := v.scrollHeight }

/-- The `for` loop of `initParticles`: `n` more particles are pushed, the next draw being
number `k`. -/
def initLoop (w h : ℚ) (rand : ℕ → ℚ) : ℕ → ℕ → List Particle → List Particle × ℕ
  | 0, k, acc => (acc, k)
  | n + 1, k, acc => initLoop w h rand n (k + 6) (acc ++ [Particle.new w h rand k])

/-- The function `initParticles`: `particles = []`, then
`Math.min(Math.floor((canvas.width * canvas.height) / 15000), 80)` pushes. -/
def initParticles (rand : ℕ → ℚ) (s : State) : State :=
  let particleCount := min (s.width * s.height / 15000) 80
  let r := initLoop s.width s.height rand particleCount s.draws []
  { s with particles := r.1, draws := r.2 }

/-! ## Connections -/

/-- The element `particles[i]`. -/
def particleAt (ps : List Particle) (i : ℕ) : Particle :=
  ps.getD i ⟨0, 0, 0, 0, 0, 0⟩

/-- The `distance` of `connectParticles`: `Math.sqrt(dx * dx + dy * dy)`. -/
def distance (sqrt : ℚ → ℚ) (p q : Particle) : ℚ :=
  sqrt ((p.x - q.x) * (p.x - q.x) + (p.y - q.y) * (p.y - q.y))

/-- The body of the `if (distance < 120)` of `connectParticles`: one stroked segment. -/
def segment (sqrt : ℚ → ℚ) (p q : Particle) : List Cmd :=
  [Cmd.strokeStyle (3 / 20 * (1 - distance sqrt p q / 120)), Cmd.lineWidth (1 / 2),
    Cmd.beginPath, Cmd.moveTo p.x p.y, Cmd.lineTo q.x q.y, Cmd.stroke]

/-- The function `connectParticles`: `i` from `0` below the length, `j` from `i + 1` below
the length. -/
def connectParticles (sqrt : ℚ → ℚ) (ps : List Particle) : List Cmd :=
  (List.range ps.length).flatMap fun i =>
    (List.range' (i + 1) (ps.length - (i + 1))).flatMap fun j =>
      if distance sqrt (particleAt ps i) (particleAt ps j) < 120 then
        segment sqrt (particleAt ps i) (particleAt ps j)
      else []

/-- The index pairs `(i, j)` that the two loops of `connectParticles` visit, in the order
they are visited. -/
def visitedPairs (n : ℕ) : List (ℕ × ℕ) :=
  (List.range n).flatMap fun i => (List.range' (i + 1) (n - (i + 1))).map fun j => (i, j)

/-- The visited pairs whose two particles are less than 120 apart. -/
def closePairs (sqrt : ℚ → ℚ) (ps : List Particle) : List (ℕ × ℕ) :=
  (visitedPairs ps.length).filter fun ij =>
    decide (distance sqrt (particleAt ps ij.1) (particleAt ps ij.2) < 120)

/-! ## The frame loop -/

/-- Which host capabilities exist: the element `particleCanvas`, a non-null result of
`canvas.getContext('2d')`, and the global `requestAnimationFrame`. -/
structure Host where
  hasCanvas : Bool
  hasContext : Bool
  hasFrameClock : Bool
  deriving DecidableEq, Repr

/-- The errors that the start-up code can raise. -/
inductive JsError where
  | typeError
  | referenceError
  deriving DecidableEq, Repr

/-- The `forEach` of `animate`: each particle is updated and then drawn, in index order. -/
def animateLoop (w h : ℚ) : List Particle → List Particle × List Cmd
  | [] => ([], [])
  | p :: ps =>
    ((Particle.update w h p) :: (animateLoop w h ps).1,
      (Particle.update w h p).draw ++ (animateLoop w h ps).2)

/-- The drawing part of `animate` (all but its last line): the new particles and the calls
made on `ctx`. -/
def animateFrame (sqrt : ℚ → ℚ) (w h : ℚ) (ps : List Particle) : List Particle × List Cmd :=
  ((animateLoop w h ps).1,
    [Cmd.clearRect 0 0 w h] ++ (animateLoop w h ps).2 ++
      connectParticles sqrt (animateLoop w h ps).1)

/-- The host's `requestAnimationFrame(animate)`: a fresh handle joins the pending ones. -/
def requestAnimationFrame (s : State) : State × ℕ :=
  ({ s with nextHandle := s.nextHandle + 1, pendingFrames := s.pendingFrames ++ [s.nextHandle] },
    s.nextHandle)

/-- The host's `cancelAnimationFrame(id)`: the handle leaves the pending ones; an undefined
or unknown handle changes nothing. -/
def cancelAnimationFrame (id : Option ℕ) (s : State) : State :=
  match id with
  | none => s
  | some k => { s with pendingFrames := s.pendingFrames.filter (fun j => j ≠ k),
                       cancelled := s.cancelled ++ [k] }

/-- The function `animate`. With `ctx` null the first statement `ctx.clearRect(...)`
raises a `TypeError`; without a global `requestAnimationFrame` the last statement raises a
`ReferenceError` after the frame has been drawn. -/
def animate (host : Host) (sqrt : ℚ → ℚ) (s : State) : State × Option JsError :=
  if host.hasContext then
    let fr := animateFrame sqrt s.width s.height s.particles
    let s₁ := { s with particles := fr.1, canvasLog := s.canvasLog ++ fr.2,
                       frames := s.frames + 1 }
    if host.hasFrameClock then
      let r := requestAnimationFrame s₁
      ({ r.1 with animationId := some r.2 }, none)
    else (s₁, some JsError.referenceError)
  else (s, some JsError.typeError)

/-- The handler passed to `debounce` in the `resize` listener. -/
def onResize (host : Host) (rand : ℕ → ℚ) (sqrt : ℚ → ℚ) (v : Viewport) (s : State) : State :=
  (animate host sqrt (initParticles rand (resizeCanvas v (cancelAnimationFrame s.animationId s)))).1

/-- One display refresh: the host takes the callbacks pending at that moment and runs
them; each of them is `animate`. -/
def displayRefresh (host : Host) (sqrt : ℚ → ℚ) (s : State) : State :=
  s.pendingFrames.foldl (fun st _ => (animate host sqrt st).1)
    { s with pendingFrames := [], ran := s.ran ++ s.pendingFrames }

/-- What section 1 of the `DOMContentLoaded` handler leaves behind: the component state,
whether the `resize` listener was registered, and the error raised, if any (an error ends
the whole handler). -/
structure PageLoad where
  state : State
  listening : Bool
  error : Option JsError
  deriving DecidableEq, Repr

/-- Section 1 of the `DOMContentLoaded` handler: the guard `if (canvas)`, then
`resizeCanvas(); initParticles(); animate();` and the registration of the listener. -/
def particleBackground (host : Host) (rand : ℕ → ℚ) (sqrt : ℚ → ℚ) (v : Viewport) : PageLoad :=
  if host.hasCanvas then
    let r := animate host sqrt (initParticles rand (resizeCanvas v State.initial))
    match r.2 with
    | some e => { state := r.1, listening := false, error := some e }
    | none => { state := r.1, listening := true, error := none }
  else { state := State.initial, listening := false, error := none }

/-- What can happen after start-up: a display refresh, or a run of the debounced `resize`
handler with the viewport of that moment. -/
inductive Event where
  | refresh
  | resize (v : Viewport)
  deriving DecidableEq, Repr

/-- The effect of one event. -/
def Event.apply (host : Host) (rand : ℕ → ℚ) (sqrt : ℚ → ℚ) (s : State) : Event → State
  | Event.refresh => displayRefresh host sqrt s
  | Event.resize v => onResize host rand sqrt v s

/-- The state after start-up with viewport `v` followed by the events `es`. -/
def runEvents (host : Host) (rand : ℕ → ℚ) (sqrt : ℚ → ℚ) (v : Viewport) (es : List Event) :
    State :=
  es.foldl (Event.apply host rand sqrt) (particleBackground host rand sqrt v).state

/-! ## The two phases of the specification -/

/-- The wrap of one coordinate in the words of the specification: above the bound, reset
to `0`; negative, reset to the bound. -/
def specWrap (bound v : ℚ) : ℚ :=
  if v > bound then 0 else if v < 0 then bound else v

/-- The phase `step()` of the specification: every particle adds its velocity to its
position and wraps each axis; size, velocity and opacity stay. -/
def specStep (w h : ℚ) (ps : List Particle) : List Particle :=
  ps.map fun p => { p with x := specWrap w (p.x + p.speedX), y := specWrap h (p.y + p.speedY) }

/-- The `drawFilledCircle` of the specification as calls on `ctx`. -/
def specFilledCircle (x y r alpha : ℚ) : List Cmd :=
  [Cmd.fillStyle alpha, Cmd.beginPath, Cmd.arc x y r, Cmd.fill]

/-- The phase `render()` of the specification: clear, one filled circle per particle in
index order, then `connect`. -/
def specRender (sqrt : ℚ → ℚ) (w h : ℚ) (ps : List Particle) : List Cmd :=
  [Cmd.clearRect 0 0 w h] ++ (ps.flatMap fun p => specFilledCircle p.x p.y p.size p.opacity) ++
    connectParticles sqrt ps

/-! ## Debounce -/

/-- The closure state of one function returned by `debounce(func, delay)` together with
the host's timers for it: the variable `timeout`, the next fresh timer handle, the pending
timers (handle, due time, arguments of the call that set it) in the order they were set,
and the calls of `func` so far (time of the call, arguments). -/
structure Debounced (α : Type) where
  timeout : Option ℕ
  nextTimer : ℕ
  pending : List (ℕ × ℕ × α)
  runs : List (ℕ × α)
  deriving DecidableEq, Repr

/-- The state right after `debounce(func, delay)` returns: `timeout` undefined, no timer. -/
def Debounced.fresh (α : Type) : Debounced α :=
  { timeout := none, nextTimer := 0, pending := [], runs := [] }

/-- The host's `clearTimeout(id)`: the timer leaves the pending ones; an undefined or
expired handle changes nothing. -/
def clearTimeout {α : Type} (id : Option ℕ) (s : Debounced α) : Debounced α :=
  match id with
  | none => s
  | some k => { s with pending := s.pending.filter (fun e => e.1 ≠ k) }

/-- The host's `setTimeout(() => func.apply(this, args), delay)` called at time `now`: a
fresh handle, due at `now + delay`. -/
def setTimeout {α : Type} (now delay : ℕ) (args : α) (s : Debounced α) : Debounced α × ℕ :=
  ({ s with nextTimer := s.nextTimer + 1,
            pending := s.pending ++ [(s.nextTimer, now + delay, args)] },
    s.nextTimer)

/-- The host's timer phase up to time `t`: every pending timer due at `t` or before runs
its callback `func.apply(this, args)` at its due time. All timers of one debounced
function have the same delay, so the order in which they were set is the order in which
they are due. -/
def fireDue {α : Type} (t : ℕ) (s : Debounced α) : Debounced α :=
  { s with pending := s.pending.filter (fun e => ¬ e.2.1 ≤ t),
           runs := s.runs ++ ((s.pending.filter (fun e => e.2.1 ≤ t)).map fun e => (e.2.1, e.2.2)) }

/-- The body of the function returned by `debounce`, called at time `t` with arguments
`args`: `clearTimeout(timeout); timeout = setTimeout(..., delay)`. -/
def debounceBody {α : Type} (delay t : ℕ) (args : α) (s : Debounced α) : Debounced α :=
  let r := setTimeout t delay args (clearTimeout s.timeout s)
  { r.1 with timeout := some r.2 }

/-- One call of the debounced function at time `t`: the timers due by then have run, then
the body runs. -/
def debounceCall {α : Type} (delay : ℕ) (s : Debounced α) (c : ℕ × α) : Debounced α :=
  debounceBody delay c.1 c.2 (fireDue c.1 s)

/-- The state after the calls `calls` (time, arguments), given in the order they are made. -/
def debounceCalls {α : Type} (delay : ℕ) (calls : List (ℕ × α)) (s : Debounced α) :
    Debounced α :=
  calls.foldl (debounceCall delay) s

/-- The host's timer phase once no further call comes: every pending timer runs. -/
def fireAll {α : Type} (s : Debounced α) : Debounced α :=
  { s with pending := [], runs := s.runs ++ s.pending.map fun e => (e.2.1, e.2.2) }

/-- The calls of `func` (time, arguments) that result from the calls `calls` of
`debounce(func, delay)`. -/
def debounce {α : Type} (delay : ℕ) (calls : List (ℕ × α)) : List (ℕ × α) :=
  (fireAll (debounceCalls delay calls (Debounced.fresh α))).runs

/-- Every state the closure and its timers pass through during one call at time `c.1`:
after the timer phase, after `clearTimeout`, and after `setTimeout` and the assignment. -/
def debounceCallStates {α : Type} (delay : ℕ) (s : Debounced α) (c : ℕ × α) :
    List (Debounced α) :=
  [fireDue c.1 s, clearTimeout (fireDue c.1 s).timeout (fireDue c.1 s), debounceCall delay s c]

/-- Every state passed through during the calls `calls` and the final timer phase,
starting from `s`. -/
def debounceStates {α : Type} (delay : ℕ) : List (ℕ × α) → Debounced α → List (Debounced α)
  | [], s => [s, fireAll s]
  | c :: cs, s => s :: debounceCallStates delay s c ++ debounceStates delay cs (debounceCall delay s c)

/-- The calls of `func` that the specification asks for: one for each call that is not
followed by another call less than `delay` later, at that call's time plus `delay`, with
that call's arguments. -/
def expectedRuns {α : Type} (delay : ℕ) : List (ℕ × α) → List (ℕ × α)
  | [] => []
  | c :: cs =>
    (if cs.any (fun d => decide (d.1 < c.1 + delay)) then [] else [(c.1 + delay, c.2)]) ++
      expectedRuns delay cs

/-- The times of the calls increase strictly. -/
def StrictlyIncreasing {α : Type} (calls : List (ℕ × α)) : Prop :=
  calls.Pairwise fun c d => c.1 < d.1

/-- Consecutive calls are less than `gap` apart. -/
def GapsBelow {α : Type} (gap : ℕ) (calls : List (ℕ × α)) : Prop :=
  calls.Chain' fun c d => d.1 < c.1 + gap

/-- The closure is idle (no timer pending) or armed (one timer pending, and `timeout` is
its handle). -/
def IdleOrArmed {α : Type} (s : Debounced α) : Prop :=
  s.pending = [] ∨ ∃ k due a, s.pending = [(k, due, a)] ∧ s.timeout = some k

/-! ## Predicates on states -/

/-- A host on which the element, its 2D context and the frame clock all exist. -/
def Host.full : Host := { hasCanvas := true, hasContext := true, hasFrameClock := true }

/-- One loop only: exactly one frame callback is pending and `animationId` is its handle.
The remaining parts say that handles are fresh: every handle that has run or was cancelled
is older than the next handle and is not the pending one, and no cancelled handle has run. -/
def LoopInvariant (s : State) : Prop :=
  ∃ k, s.pendingFrames = [k] ∧ s.animationId = some k ∧ k < s.nextHandle ∧
    (∀ j ∈ s.ran, j < s.nextHandle ∧ j ≠ k) ∧
    (∀ j ∈ s.cancelled, j < s.nextHandle ∧ j ≠ k) ∧
    (∀ j ∈ s.cancelled, j ∉ s.ran)

/-- The component is inert after page load: no particle was created (none is held and no
random draw was made), no call was made on `ctx`, no frame was requested or drawn, no
`resize` listener was registered and no error was raised. -/
def Inert (r : PageLoad) : Prop :=
  r.state.particles = [] ∧ r.state.draws = 0 ∧ r.state.canvasLog = [] ∧
  r.state.nextHandle = 0 ∧ r.state.pendingFrames = [] ∧ r.state.frames = 0 ∧
  r.listening = false ∧ r.error = none

/-! ## Properties of `update` and of the constructor -/

theorem Particle.update_x (w h : ℚ) (p : Particle) :
    (Particle.update w h p).x =
      if (if p.x + p.speedX > w then 0 else p.x + p.speedX) < 0 then w
      else (if p.x + p.speedX > w then 0 else p.x + p.speedX) := rfl

theorem Particle.update_y (w h : ℚ) (p : Particle) :
    (Particle.update w h p).y =
      if (if p.y + p.speedY > h then 0 else p.y + p.speedY) < 0 then h
      else (if p.y + p.speedY > h then 0 else p.y + p.speedY) := rfl

theorem Particle.update_closed (w h : ℚ) (hw : 0 ≤ w) (hh : 0 ≤ h) (p : Particle) :
    (0 ≤ (Particle.update w h p).x ∧ (Particle.update w h p).x ≤ w) ∧
    (0 ≤ (Particle.update w h p).y ∧ (Particle.update w h p).y ≤ h) := by
  rw [Particle.update_x, Particle.update_y]
  refine ⟨?_, ?_⟩
  · split_ifs <;> constructor <;> linarith
  · split_ifs <;> constructor <;> linarith

theorem Particle.updateN_succ (w h : ℚ) (n : ℕ) (p : Particle) :
    Particle.updateN w h (n + 1) p = Particle.update w h (Particle.updateN w h n p) := by
  induction n generalizing p with
  | zero => rfl
  | succ n ih =>
    show Particle.updateN w h (n + 1) (Particle.update w h p) = _
    rw [ih]
    rfl

theorem Particle.updateN_closed (w h : ℚ) (hw : 0 ≤ w) (hh : 0 ≤ h) (n : ℕ) (p : Particle) :
    (0 ≤ (Particle.updateN w h (n + 1) p).x ∧ (Particle.updateN w h (n + 1) p).x ≤ w) ∧
    (0 ≤ (Particle.updateN w h (n + 1) p).y ∧ (Particle.updateN w h (n + 1) p).y ≤ h) := by
  rw [Particle.updateN_succ]
  exact Particle.update_closed w h hw hh _

/-- **C10.** On a canvas of width `w ≥ 0` and height `h ≥ 0`, whatever the position and
velocity of a particle, one call of `update` leaves `0 ≤ x ≤ w` and `0 ≤ y ≤ h`, and so
does every later call. -/
theorem update_closed_bounds (w h : ℚ) (hw : 0 ≤ w) (hh : 0 ≤ h) (p : Particle) :
    ((0 ≤ (Particle.update w h p).x ∧ (Particle.update w h p).x ≤ w) ∧
      (0 ≤ (Particle.update w h p).y ∧ (Particle.update w h p).y ≤ h)) ∧
    ∀ n : ℕ,
      (0 ≤ (Particle.updateN w h (n + 1) p).x ∧ (Particle.updateN w h (n + 1) p).x ≤ w) ∧
      (0 ≤ (Particle.updateN w h (n + 1) p).y ∧ (Particle.updateN w h (n + 1) p).y ≤ h) :=
  ⟨Particle.update_closed w h hw hh p, fun n => Particle.updateN_closed w h hw hh n p⟩

/-- Witness of C10: a particle far outside a 100 by 50 canvas. -/
theorem update_closed_bounds_witness :
    (0 : ℚ) ≤ 100 ∧ (0 : ℚ) ≤ 50 ∧
    (((0 ≤ (Particle.update 100 50 ⟨-7, 900, 1, -3, 4, 1⟩).x ∧
        (Particle.update 100 50 ⟨-7, 900, 1, -3, 4, 1⟩).x ≤ 100) ∧
      (0 ≤ (Particle.update 100 50 ⟨-7, 900, 1, -3, 4, 1⟩).y ∧
        (Particle.update 100 50 ⟨-7, 900, 1, -3, 4, 1⟩).y ≤ 50)) ∧
    ∀ n : ℕ,
      (0 ≤ (Particle.updateN 100 50 (n + 1) ⟨-7, 900, 1, -3, 4, 1⟩).x ∧
        (Particle.updateN 100 50 (n + 1) ⟨-7, 900, 1, -3, 4, 1⟩).x ≤ 100) ∧
      (0 ≤ (Particle.updateN 100 50 (n + 1) ⟨-7, 900, 1, -3, 4, 1⟩).y ∧
        (Particle.updateN 100 50 (n + 1) ⟨-7, 900, 1, -3, 4, 1⟩).y ≤ 50)) :=
  ⟨by norm_num, by norm_num,
    update_closed_bounds 100 50 (by norm_num) (by norm_num) ⟨-7, 900, 1, -3, 4, 1⟩⟩

/-- **C6.** With every draw in `[0, 1)`, a constructed particle has size in `[0.5, 2.5]`,
both velocity components in `[-0.25, 0.25]` and opacity in `[0.2, 0.7]`. -/
theorem constructor_sampling_bounds (w h : ℚ) (rand : ℕ → ℚ) (k : ℕ)
    (hr : ∀ i, 0 ≤ rand i ∧ rand i < 1) :
    (1 / 2 ≤ (Particle.new w h rand k).size ∧ (Particle.new w h rand k).size ≤ 5 / 2) ∧
    (-(1 / 4) ≤ (Particle.new w h rand k).speedX ∧ (Particle.new w h rand k).speedX ≤ 1 / 4) ∧
    (-(1 / 4) ≤ (Particle.new w h rand k).speedY ∧ (Particle.new w h rand k).speedY ≤ 1 / 4) ∧
    (1 / 5 ≤ (Particle.new w h rand k).opacity ∧ (Particle.new w h rand k).opacity ≤ 7 / 10) := by
  have h2 := hr (k + 2)
  have h3 := hr (k + 3)
  have h4 := hr (k + 4)
  have h5 := hr (k + 5)
  simp only [Particle.new]
  refine ⟨⟨?_, ?_⟩, ⟨?_, ?_⟩, ⟨?_, ?_⟩, ⟨?_, ?_⟩⟩ <;> linarith [h2.1, h2.2, h3.1, h3.2, h4.1, h4.2, h5.1, h5.2]

/-- Witness of C6: the stream whose every draw is `1/2`, on an 800 by 600 canvas. -/
theorem constructor_sampling_bounds_witness :
    (∀ i, 0 ≤ halfDraws i ∧ halfDraws i < 1) ∧
    (1 / 2 ≤ (Particle.new 800 600 halfDraws 0).size ∧
      (Particle.new 800 600 halfDraws 0).size ≤ 5 / 2) ∧
    (-(1 / 4) ≤ (Particle.new 800 600 halfDraws 0).speedX ∧
      (Particle.new 800 600 halfDraws 0).speedX ≤ 1 / 4) ∧
    (-(1 / 4) ≤ (Particle.new 800 600 halfDraws 0).speedY ∧
      (Particle.new 800 600 halfDraws 0).speedY ≤ 1 / 4) ∧
    (1 / 5 ≤ (Particle.new 800 600 halfDraws 0).opacity ∧
      (Particle.new 800 600 halfDraws 0).opacity ≤ 7 / 10) :=
  ⟨fun _ => by norm_num [halfDraws],
    constructor_sampling_bounds 800 600 halfDraws 0 (fun _ => by norm_num [halfDraws])⟩

/-- The position reached from a freshly constructed particle when every draw is `0`, on a
100 by 50 canvas: the particle starts in the corner `(0, 0)` with velocity
`(-1/4, -1/4)`, and its first `update` puts it on the far edges. -/
theorem Particle.update_new_zeroDraws :
    (Particle.updateN 100 50 1 (Particle.new 100 50 zeroDraws 0)).x = 100 ∧
    (Particle.updateN 100 50 1 (Particle.new 100 50 zeroDraws 0)).y = 50 := by
  norm_num [Particle.updateN, Particle.update, Particle.new, zeroDraws]

/-- Counterexample to C1 as stated: on a 100 by 50 canvas the particle constructed from
draws that are all `0` has `x = 100 = w` after one `update`, so `x < w` fails. -/
theorem toroidal_half_open_fails :
    ¬ (∀ (w h : ℚ) (rand : ℕ → ℚ) (k n : ℕ), 0 < w → 0 < h →
        (∀ i, 0 ≤ rand i ∧ rand i < 1) →
        (0 ≤ (Particle.updateN w h n (Particle.new w h rand k)).x ∧
          (Particle.updateN w h n (Particle.new w h rand k)).x < w) ∧
        (0 ≤ (Particle.updateN w h n (Particle.new w h rand k)).y ∧
          (Particle.updateN w h n (Particle.new w h rand k)).y < h)) := by
  intro hall
  have hc := hall 100 50 zeroDraws 0 1 (by norm_num) (by norm_num)
    (fun _ => by norm_num [zeroDraws])
  have hx := hc.1.2
  rw [Particle.update_new_zeroDraws.1] at hx
  exact absurd hx (lt_irrefl _)

/-- **C1, amended.** On a canvas of width `w > 0` and height `h > 0`, a particle
constructed from draws in `[0, 1)` satisfies `0 ≤ x ≤ w` and `0 ≤ y ≤ h` after any
number `n` of calls of `update`; before the first call (`n = 0`) the upper bounds are
strict. -/
theorem toroidal_closed_invariant (w h : ℚ) (rand : ℕ → ℚ) (k n : ℕ)
    (hw : 0 < w) (hh : 0 < h) (hr : ∀ i, 0 ≤ rand i ∧ rand i < 1) :
    ((0 ≤ (Particle.updateN w h n (Particle.new w h rand k)).x ∧
        (Particle.updateN w h n (Particle.new w h rand k)).x ≤ w) ∧
      (0 ≤ (Particle.updateN w h n (Particle.new w h rand k)).y ∧
        (Particle.updateN w h n (Particle.new w h rand k)).y ≤ h)) ∧
    (n = 0 →
      (Particle.updateN w h n (Particle.new w h rand k)).x < w ∧
      (Particle.updateN w h n (Particle.new w h rand k)).y < h) := by
  have h0 := hr k
  have h1 := hr (k + 1)
  have hx0 : 0 ≤ rand k * w := mul_nonneg h0.1 hw.le
  have hy0 : 0 ≤ rand (k + 1) * h := mul_nonneg h1.1 hh.le
  have hx1 : rand k * w < w := by nlinarith [h0.2]
  have hy1 : rand (k + 1) * h < h := by nlinarith [h1.2]
  refine ⟨?_, ?_⟩
  · cases n with
    | zero => exact ⟨⟨hx0, hx1.le⟩, ⟨hy0, hy1.le⟩⟩
    | succ m => exact Particle.updateN_closed w h hw.le hh.le m _
  · intro hn
    subst hn
    exact ⟨hx1, hy1⟩

/-- Witness of the amended C1: three updates of the particle built from draws `1/2` on an
800 by 600 canvas. -/
theorem toroidal_closed_invariant_witness :
    (0 : ℚ) < 800 ∧ (0 : ℚ) < 600 ∧ (∀ i, 0 ≤ halfDraws i ∧ halfDraws i < 1) ∧
    (((0 ≤ (Particle.updateN 800 600 3 (Particle.new 800 600 halfDraws 0)).x ∧
        (Particle.updateN 800 600 3 (Particle.new 800 600 halfDraws 0)).x ≤ 800) ∧
      (0 ≤ (Particle.updateN 800 600 3 (Particle.new 800 600 halfDraws 0)).y ∧
        (Particle.updateN 800 600 3 (Particle.new 800 600 halfDraws 0)).y ≤ 600)) ∧
    (3 = 0 →
      (Particle.updateN 800 600 3 (Particle.new 800 600 halfDraws 0)).x < 800 ∧
      (Particle.updateN 800 600 3 (Particle.new 800 600 halfDraws 0)).y < 600)) :=
  ⟨by norm_num, by norm_num, fun _ => by norm_num [halfDraws],
    toroidal_closed_invariant 800 600 halfDraws 0 3 (by norm_num) (by norm_num)
      (fun _ => by norm_num [halfDraws])⟩

/-! ## Seeding -/

theorem initLoop_eq (w h : ℚ) (rand : ℕ → ℚ) (n k : ℕ) (acc : List Particle) :
    initLoop w h rand n k acc =
      (acc ++ (List.range n).map (fun i => Particle.new w h rand (k + 6 * i)), k + 6 * n) := by
  induction n generalizing k acc with
  | zero => simp [initLoop]
  | succ n ih =>
    rw [initLoop, ih, List.range_succ_eq_map]
    simp only [List.map_cons, List.map_map, List.append_assoc, List.singleton_append,
      Nat.mul_zero, Nat.add_zero]
    refine Prod.ext ?_ ?_
    · simp only
      congr 2
      apply List.map_congr_left
      intro i _
      simp only [Function.comp_apply]
      congr 1
      omega
    · simp only
      omega

theorem initParticles_particles (rand : ℕ → ℚ) (s : State) :
    (initParticles rand s).particles =
      (List.range (min (s.width * s.height / 15000) 80)).map
        (fun i => Particle.new s.width s.height rand (s.draws + 6 * i)) := by
  simp [initParticles, initLoop_eq]

/-- **C2.** Whatever the state held before, `initParticles` leaves exactly
`min (w * h / 15000) 80` particles (natural-number division is the floor), a number that
is at most 80; all of them are freshly constructed; an 800 by 600 canvas gets 32 and a
2000 by 2000 canvas gets 80. -/
theorem seed_count (rand : ℕ → ℚ) (s : State) :
    (initParticles rand s).particles.length = min (s.width * s.height / 15000) 80 ∧
    0 ≤ (initParticles rand s).particles.length ∧
    (initParticles rand s).particles.length ≤ 80 ∧
    (initParticles rand s).particles =
      (List.range (min (s.width * s.height / 15000) 80)).map
        (fun i => Particle.new s.width s.height rand (s.draws + 6 * i)) ∧
    (initParticles rand (resizeCanvas ⟨800, 600⟩ s)).particles.length = 32 ∧
    (initParticles rand (resizeCanvas ⟨2000, 2000⟩ s)).particles.length = 80 := by
  have hlen : ∀ t : State,
      (initParticles rand t).particles.length = min (t.width * t.height / 15000) 80 := by
    intro t
    rw [initParticles_particles]
    simp
  refine ⟨hlen s, Nat.zero_le _, ?_, initParticles_particles rand s, ?_, ?_⟩
  · rw [hlen]
    exact min_le_right _ _
  · rw [hlen]
    show 800 * 600 / 15000 ⊓ 80 = 32
    decide
  · rw [hlen]
    show 2000 * 2000 / 15000 ⊓ 80 = 80
    decide

/-! ## One frame -/

theorem Particle.update_eq_specWrap (w h : ℚ) (p : Particle) :
    Particle.update w h p =
      { p with x := specWrap w (p.x + p.speedX), y := specWrap h (p.y + p.speedY) } := by
  have hx : (Particle.update w h p).x = specWrap w (p.x + p.speedX) := by
    rw [Particle.update_x]
    unfold specWrap
    split_ifs <;> first | rfl | (exfalso; linarith)
  have hy : (Particle.update w h p).y = specWrap h (p.y + p.speedY) := by
    rw [Particle.update_y]
    unfold specWrap
    split_ifs <;> first | rfl | (exfalso; linarith)
  rw [← hx, ← hy]
  rfl

theorem animateLoop_fst (w h : ℚ) (ps : List Particle) :
    (animateLoop w h ps).1 = ps.map (Particle.update w h) := by
  induction ps with
  | nil => rfl
  | cons p ps ih => simp [animateLoop, ih]

theorem animateLoop_snd (w h : ℚ) (ps : List Particle) :
    (animateLoop w h ps).2 = (ps.map (Particle.update w h)).flatMap Particle.draw := by
  induction ps with
  | nil => rfl
  | cons p ps ih => simp [animateLoop, ih]

theorem specStep_eq_map_update (w h : ℚ) (ps : List Particle) :
    specStep w h ps = ps.map (Particle.update w h) := by
  unfold specStep
  apply List.map_congr_left
  intro p _
  exact (Particle.update_eq_specWrap w h p).symm

/-- **C9.** One call of `animate`, which updates and draws particle by particle, leaves the
particles of the phase `step()` of the specification and makes on `ctx` exactly the calls
of the phase `render()` applied to the stepped particles; `step()` keeps size, velocity
and opacity of every particle. -/
theorem animate_refines_step_render (sqrt : ℚ → ℚ) (w h : ℚ) (ps : List Particle) :
    animateFrame sqrt w h ps = (specStep w h ps, specRender sqrt w h (specStep w h ps)) ∧
    (specStep w h ps).map (fun p => (p.size, p.speedX, p.speedY, p.opacity)) =
      ps.map (fun p => (p.size, p.speedX, p.speedY, p.opacity)) := by
  refine ⟨?_, ?_⟩
  · unfold animateFrame specRender
    rw [animateLoop_fst, animateLoop_snd, specStep_eq_map_update]
    rfl
  · simp [specStep, List.map_map, Function.comp_def]


/-! ## The connection pass -/

theorem distance_comm (sqrt : ℚ → ℚ) (p q : Particle) :
    distance sqrt p q = distance sqrt q p := by
  unfold distance
  congr 1
  ring

theorem filter_flatMap_ite {α β : Type} (P : α → Bool) (f : α → List β) (l : List α) :
    (l.filter P).flatMap f = l.flatMap (fun a => if P a = true then f a else []) := by
  induction l with
  | nil => rfl
  | cons a l ih =>
    by_cases h : P a = true
    · simp [List.filter_cons, h, ih]
    · simp [List.filter_cons, h, ih]

theorem mem_visitedPairs (n i j : ℕ) : (i, j) ∈ visitedPairs n ↔ i < j ∧ j < n := by
  unfold visitedPairs
  simp only [List.mem_flatMap, List.mem_range, List.mem_map, List.mem_range', Prod.mk.injEq]
  constructor
  · rintro ⟨a, _, b, ⟨c, hc, rfl⟩, rfl, rfl⟩
    omega
  · rintro ⟨hij, hjn⟩
    exact ⟨i, by omega, j, ⟨j - (i + 1), by omega, by omega⟩, rfl, rfl⟩

theorem nodup_visitedPairs (n : ℕ) : (visitedPairs n).Nodup := by
  unfold visitedPairs
  rw [List.nodup_flatMap]
  refine ⟨?_, ?_⟩
  · intro i _
    refine List.Nodup.map ?_ (List.nodup_range' _ _)
    intro a b hab
    exact (Prod.mk.inj hab).2
  · refine (List.nodup_range n).pairwise_of_forall_ne ?_
    intro a _ b _ hab
    show List.Disjoint _ _
    intro x hxa hxb
    rw [List.mem_map] at hxa hxb
    obtain ⟨c, _, rfl⟩ := hxa
    obtain ⟨d, _, hd⟩ := hxb
    exact hab (Prod.mk.inj hd).1.symm

theorem mem_closePairs (sqrt : ℚ → ℚ) (ps : List Particle) (i j : ℕ) :
    (i, j) ∈ closePairs sqrt ps ↔
      i < j ∧ j < ps.length ∧ distance sqrt (particleAt ps i) (particleAt ps j) < 120 := by
  unfold closePairs
  rw [List.mem_filter, mem_visitedPairs]
  simp only [decide_eq_true_eq]
  tauto

theorem connectParticles_eq (sqrt : ℚ → ℚ) (ps : List Particle) :
    connectParticles sqrt ps =
      (closePairs sqrt ps).flatMap
        (fun ij => segment sqrt (particleAt ps ij.1) (particleAt ps ij.2)) := by
  unfold closePairs visitedPairs connectParticles
  rw [filter_flatMap_ite, List.flatMap_assoc]
  simp only [List.flatMap_map, decide_eq_true_eq]

/-- **C3.** The calls made by `connectParticles` are one segment for each pair of
`closePairs`, in the order of the loops. A pair `(i, j)` is in `closePairs` exactly when
`i < j`, both are indices of the list and the distance of the two particles is below 120;
so for two different indices the unordered pair is drawn if and only if the distance is
below 120, no pair is drawn twice, none in both orders and no particle with itself. A segment
sets the stroke alpha to `0.15 * (1 - d / 120)` and the line width to `0.5`, and goes from
the position of the first particle to that of the second; the distance `d` is
`sqrt (dx * dx + dy * dy)`. -/
theorem connect_pass (sqrt : ℚ → ℚ) (ps : List Particle) :
    connectParticles sqrt ps =
      (closePairs sqrt ps).flatMap
        (fun ij => segment sqrt (particleAt ps ij.1) (particleAt ps ij.2)) ∧
    (closePairs sqrt ps).Nodup ∧
    (∀ i j, (i, j) ∈ closePairs sqrt ps ↔
      i < j ∧ j < ps.length ∧ distance sqrt (particleAt ps i) (particleAt ps j) < 120) ∧
    (∀ i j, i < ps.length → j < ps.length → i ≠ j →
      ((min i j, max i j) ∈ closePairs sqrt ps ↔
        distance sqrt (particleAt ps i) (particleAt ps j) < 120)) ∧
    (∀ i j, (i, j) ∈ closePairs sqrt ps → i ≠ j ∧ (j, i) ∉ closePairs sqrt ps) ∧
    (∀ p q, distance sqrt p q =
      sqrt ((p.x - q.x) * (p.x - q.x) + (p.y - q.y) * (p.y - q.y))) ∧
    (∀ p q, segment sqrt p q =
      [Cmd.strokeStyle (15 / 100 * (1 - distance sqrt p q / 120)), Cmd.lineWidth (5 / 10),
        Cmd.beginPath, Cmd.moveTo p.x p.y, Cmd.lineTo q.x q.y, Cmd.stroke]) := by
  refine ⟨connectParticles_eq sqrt ps, ?_, mem_closePairs sqrt ps, ?_, ?_, fun _ _ => rfl, ?_⟩
  · exact (nodup_visitedPairs ps.length).filter _
  · intro i j hi hj hij
    rw [mem_closePairs]
    rcases Nat.lt_or_gt_of_ne hij with h | h
    · rw [min_eq_left h.le, max_eq_right h.le]
      constructor
      · exact fun hc => hc.2.2
      · exact fun hd => ⟨h, hj, hd⟩
    · rw [min_eq_right h.le, max_eq_left h.le, distance_comm sqrt (particleAt ps i)]
      constructor
      · exact fun hc => hc.2.2
      · exact fun hd => ⟨h, hi, hd⟩
  · intro i j hmem
    rw [mem_closePairs] at hmem
    refine ⟨by omega, ?_⟩
    rw [mem_closePairs]
    intro hc
    omega
  · intro p q
    unfold segment
    norm_num


/-! ## The frame loop -/

theorem animate_full (sqrt : ℚ → ℚ) (s : State) :
    (animate Host.full sqrt s).1 =
      { s with particles := (animateFrame sqrt s.width s.height s.particles).1,
               canvasLog := s.canvasLog ++ (animateFrame sqrt s.width s.height s.particles).2,
               frames := s.frames + 1,
               nextHandle := s.nextHandle + 1,
               pendingFrames := s.pendingFrames ++ [s.nextHandle],
               animationId := some s.nextHandle } ∧
    (animate Host.full sqrt s).2 = none := by
  simp [animate, Host.full, requestAnimationFrame]

theorem displayRefresh_of_single (sqrt : ℚ → ℚ) (s : State) (k : ℕ)
    (hp : s.pendingFrames = [k]) :
    displayRefresh Host.full sqrt s =
      { s with particles := (animateFrame sqrt s.width s.height s.particles).1,
               canvasLog := s.canvasLog ++ (animateFrame sqrt s.width s.height s.particles).2,
               frames := s.frames + 1,
               nextHandle := s.nextHandle + 1,
               pendingFrames := [s.nextHandle],
               animationId := some s.nextHandle,
               ran := s.ran ++ [k] } := by
  unfold displayRefresh
  rw [hp]
  simp only [List.foldl_cons, List.foldl_nil]
  rw [(animate_full sqrt _).1]
  simp

theorem loopInvariant_start (rand : ℕ → ℚ) (sqrt : ℚ → ℚ) (v : Viewport) :
    LoopInvariant (particleBackground Host.full rand sqrt v).state := by
  have h2 := (animate_full sqrt (initParticles rand (resizeCanvas v State.initial))).2
  have h1 := (animate_full sqrt (initParticles rand (resizeCanvas v State.initial))).1
  have hs : (particleBackground Host.full rand sqrt v).state =
      (animate Host.full sqrt (initParticles rand (resizeCanvas v State.initial))).1 := by
    simp only [particleBackground, Host.full, if_true]
    rw [show Host.mk true true true = Host.full from rfl, h2]
  rw [hs, h1]
  refine ⟨0, ?_⟩
  simp [initParticles, resizeCanvas, State.initial]

theorem loopInvariant_refresh (sqrt : ℚ → ℚ) (s : State) (hs : LoopInvariant s) :
    LoopInvariant (displayRefresh Host.full sqrt s) := by
  obtain ⟨k, hp, hid, hk, hran, hcan, hdis⟩ := hs
  rw [displayRefresh_of_single sqrt s k hp]
  refine ⟨s.nextHandle, rfl, rfl, Nat.lt_succ_self _, ?_, ?_, ?_⟩
  · intro j hj
    simp only [List.mem_append, List.mem_singleton] at hj
    rcases hj with hj | rfl
    · have := (hran j hj).1
      constructor
      · show j < s.nextHandle + 1
        omega
      · show j ≠ s.nextHandle
        omega
    · constructor
      · show j < s.nextHandle + 1
        omega
      · show j ≠ s.nextHandle
        omega
  · intro j hj
    have := (hcan j hj).1
    constructor
    · show j < s.nextHandle + 1
      omega
    · show j ≠ s.nextHandle
      omega
  · intro j hj
    show j ∉ s.ran ++ [k]
    simp only [List.mem_append, List.mem_singleton, not_or]
    exact ⟨hdis j hj, (hcan j hj).2⟩

theorem onResize_of_single (rand : ℕ → ℚ) (sqrt : ℚ → ℚ) (v : Viewport) (s : State) (k : ℕ)
    (hp : s.pendingFrames = [k]) (hid : s.animationId = some k) :
    (onResize Host.full rand sqrt v s).pendingFrames = [s.nextHandle] ∧
    (onResize Host.full rand sqrt v s).animationId = some s.nextHandle ∧
    (onResize Host.full rand sqrt v s).nextHandle = s.nextHandle + 1 ∧
    (onResize Host.full rand sqrt v s).ran = s.ran ∧
    (onResize Host.full rand sqrt v s).cancelled = s.cancelled ++ [k] := by
  unfold onResize
  rw [(animate_full sqrt _).1, hid]
  simp [initParticles, resizeCanvas, cancelAnimationFrame, hp]

theorem loopInvariant_resize (rand : ℕ → ℚ) (sqrt : ℚ → ℚ) (v : Viewport) (s : State)
    (hs : LoopInvariant s) : LoopInvariant (onResize Host.full rand sqrt v s) := by
  obtain ⟨k, hp, hid, hk, hran, hcan, hdis⟩ := hs
  obtain ⟨h1, h2, h3, h4, h5⟩ := onResize_of_single rand sqrt v s k hp hid
  refine ⟨s.nextHandle, h1, h2, by omega, ?_, ?_, ?_⟩
  · intro j hj
    rw [h4] at hj
    have := (hran j hj).1
    omega
  · intro j hj
    rw [h5] at hj
    simp only [List.mem_append, List.mem_singleton] at hj
    rcases hj with hj | rfl
    · have := (hcan j hj).1
      omega
    · omega
  · intro j hj
    rw [h5] at hj
    rw [h4]
    simp only [List.mem_append, List.mem_singleton] at hj
    rcases hj with hj | rfl
    · exact hdis j hj
    · exact fun hr => (hran j hr).2 rfl

theorem loopInvariant_foldl (rand : ℕ → ℚ) (sqrt : ℚ → ℚ) (es : List Event) (s : State)
    (hs : LoopInvariant s) : LoopInvariant (es.foldl (Event.apply Host.full rand sqrt) s) := by
  induction es generalizing s with
  | nil => exact hs
  | cons e es ih =>
    rw [List.foldl_cons]
    apply ih
    cases e with
    | refresh => exact loopInvariant_refresh sqrt s hs
    | resize v => exact loopInvariant_resize rand sqrt v s hs

theorem loopInvariant_runEvents (rand : ℕ → ℚ) (sqrt : ℚ → ℚ) (v : Viewport)
    (es : List Event) : LoopInvariant (runEvents Host.full rand sqrt v es) :=
  loopInvariant_foldl rand sqrt es _ (loopInvariant_start rand sqrt v)

/-- **C8.** On a host with canvas, context and frame clock, in the state after start-up
and any sequence of display refreshes and runs of the `resize` handler, exactly one frame
callback is pending and `animationId` is its handle; the next display refresh steps and
draws exactly one frame (the particles and the calls on `ctx` are those of one `animate`),
after it and after a run of the `resize` handler again exactly one callback is pending, and
no handle given to `cancelAnimationFrame` is among those whose callback has run. -/
theorem one_loop_only (rand : ℕ → ℚ) (sqrt : ℚ → ℚ) (v : Viewport) (es : List Event) :
    (∃ k, (runEvents Host.full rand sqrt v es).pendingFrames = [k] ∧
      (runEvents Host.full rand sqrt v es).animationId = some k) ∧
    (displayRefresh Host.full sqrt (runEvents Host.full rand sqrt v es)).frames =
      (runEvents Host.full rand sqrt v es).frames + 1 ∧
    (displayRefresh Host.full sqrt (runEvents Host.full rand sqrt v es)).particles =
      (animateFrame sqrt (runEvents Host.full rand sqrt v es).width
        (runEvents Host.full rand sqrt v es).height
        (runEvents Host.full rand sqrt v es).particles).1 ∧
    (displayRefresh Host.full sqrt (runEvents Host.full rand sqrt v es)).canvasLog =
      (runEvents Host.full rand sqrt v es).canvasLog ++
        (animateFrame sqrt (runEvents Host.full rand sqrt v es).width
          (runEvents Host.full rand sqrt v es).height
          (runEvents Host.full rand sqrt v es).particles).2 ∧
    (displayRefresh Host.full sqrt (runEvents Host.full rand sqrt v es)).pendingFrames.length
      = 1 ∧
    (∀ v₁ : Viewport,
      (onResize Host.full rand sqrt v₁ (runEvents Host.full rand sqrt v es)).pendingFrames.length
        = 1) ∧
    (∀ j ∈ (runEvents Host.full rand sqrt v es).cancelled,
      j ∉ (runEvents Host.full rand sqrt v es).ran ∧
      j ∉ (runEvents Host.full rand sqrt v es).pendingFrames) := by
  have hinv := loopInvariant_runEvents rand sqrt v es
  obtain ⟨k, hp, hid, hk, hran, hcan, hdis⟩ := hinv
  have href := displayRefresh_of_single sqrt _ k hp
  refine ⟨⟨k, hp, hid⟩, ?_, ?_, ?_, ?_, ?_, ?_⟩
  · rw [href]
  · rw [href]
  · rw [href]
  · rw [href]
    rfl
  · intro v₁
    rw [(onResize_of_single rand sqrt v₁ _ k hp hid).1]
    rfl
  · intro j hj
    refine ⟨hdis j hj, ?_⟩
    rw [hp, List.mem_singleton]
    exact (hcan j hj).2

/-! ## Missing capabilities -/

theorem particleBackground_no_context (rand : ℕ → ℚ) (sqrt : ℚ → ℚ) (v : Viewport) :
    particleBackground ⟨true, false, true⟩ rand sqrt v =
      { state := initParticles rand (resizeCanvas v State.initial), listening := false,
        error := some JsError.typeError } := by
  simp [particleBackground, animate]

/-- Counterexample to C7 as stated: with the canvas element present but
`getContext` returning null, on an 800 by 600 viewport, start-up creates 32 particles and
then raises a `TypeError`, so the component is not inert. -/
theorem missing_context_not_inert :
    (particleBackground ⟨true, false, true⟩ halfDraws floorSqrt ⟨800, 600⟩).error =
      some JsError.typeError ∧
    (particleBackground ⟨true, false, true⟩ halfDraws floorSqrt ⟨800, 600⟩).state.particles.length
      = 32 ∧
    ¬ (∀ (host : Host) (rand : ℕ → ℚ) (sqrt : ℚ → ℚ) (v : Viewport),
        (host.hasCanvas = false ∨ host.hasContext = false ∨ host.hasFrameClock = false) →
        Inert (particleBackground host rand sqrt v)) := by
  refine ⟨?_, ?_, ?_⟩
  · rw [particleBackground_no_context]
  · rw [particleBackground_no_context, initParticles_particles]
    simp only [List.length_map, List.length_range]
    decide
  · intro hall
    have hc := hall ⟨true, false, true⟩ halfDraws floorSqrt ⟨800, 600⟩ (Or.inr (Or.inl rfl))
    rw [particleBackground_no_context] at hc
    have herr := hc.2.2.2.2.2.2.2
    exact absurd herr (by simp)

/-- **C7, amended.** If the canvas element is absent at initialisation, the particle
component is skipped silently: no particle is created, no call is made on `ctx`, no frame
is requested, no `resize` listener is registered and no error is raised. -/
theorem missing_canvas_inert (host : Host) (rand : ℕ → ℚ) (sqrt : ℚ → ℚ) (v : Viewport)
    (hc : host.hasCanvas = false) : Inert (particleBackground host rand sqrt v) := by
  simp [particleBackground, hc, Inert, State.initial]

/-- Witness of the amended C7: a host without the canvas element. -/
theorem missing_canvas_inert_witness :
    (Host.mk false true true).hasCanvas = false ∧
    Inert (particleBackground ⟨false, true, true⟩ halfDraws floorSqrt ⟨800, 600⟩) :=
  ⟨rfl, missing_canvas_inert ⟨false, true, true⟩ halfDraws floorSqrt ⟨800, 600⟩ rfl⟩


/-! ## Debounce -/

theorem idleOrArmed_fireDue {α : Type} (t : ℕ) (s : Debounced α) (hs : IdleOrArmed s) :
    IdleOrArmed (fireDue t s) := by
  rcases hs with h | ⟨k, due, a, h, ht⟩
  · left
    simp [fireDue, h]
  · by_cases hd : due ≤ t
    · left
      simp [fireDue, h, hd]
    · right
      exact ⟨k, due, a, by simpa [fireDue, h] using Nat.lt_of_not_le hd, ht⟩

theorem idleOrArmed_clear {α : Type} (s : Debounced α) (hs : IdleOrArmed s) :
    (clearTimeout s.timeout s).pending = [] := by
  rcases hs with h | ⟨k, due, a, h, ht⟩
  · cases hto : s.timeout with
    | none => simpa [clearTimeout] using h
    | some j => simp [clearTimeout, h]
  · rw [ht]
    simp [clearTimeout, h]

theorem debounceCall_pending {α : Type} (delay : ℕ) (s : Debounced α) (c : ℕ × α)
    (hs : IdleOrArmed s) :
    (debounceCall delay s c).pending = [((fireDue c.1 s).nextTimer, c.1 + delay, c.2)] ∧
    (debounceCall delay s c).timeout = some (fireDue c.1 s).nextTimer ∧
    (debounceCall delay s c).runs = (fireDue c.1 s).runs := by
  have hclear := idleOrArmed_clear (fireDue c.1 s) (idleOrArmed_fireDue c.1 s hs)
  have hkeep : ∀ (id : Option ℕ) (u : Debounced α),
      (clearTimeout id u).nextTimer = u.nextTimer ∧ (clearTimeout id u).runs = u.runs := by
    intro id u
    cases id <;> simp [clearTimeout]
  refine ⟨?_, ?_, ?_⟩
  · simp [debounceCall, debounceBody, setTimeout, hclear, (hkeep _ _).1]
  · simp [debounceCall, debounceBody, setTimeout, (hkeep _ _).1]
  · simp [debounceCall, debounceBody, setTimeout, (hkeep _ _).2]

theorem idleOrArmed_call {α : Type} (delay : ℕ) (s : Debounced α) (c : ℕ × α)
    (hs : IdleOrArmed s) : IdleOrArmed (debounceCall delay s c) := by
  obtain ⟨h1, h2, _⟩ := debounceCall_pending delay s c hs
  exact Or.inr ⟨_, _, _, h1, h2⟩

theorem idleOrArmed_length_le {α : Type} (s : Debounced α) (hs : IdleOrArmed s) :
    s.pending.length ≤ 1 := by
  rcases hs with h | ⟨k, due, a, h, _⟩ <;> simp [h]

theorem debounceStates_pending {α : Type} (delay : ℕ) (calls : List (ℕ × α))
    (s : Debounced α) (hs : IdleOrArmed s) :
    ∀ u ∈ debounceStates delay calls s, u.pending.length ≤ 1 := by
  induction calls generalizing s with
  | nil =>
    intro u hu
    simp only [debounceStates, List.mem_cons, List.mem_singleton, List.not_mem_nil,
      or_false] at hu
    rcases hu with rfl | rfl
    · exact idleOrArmed_length_le _ hs
    · simp [fireAll]
  | cons c cs ih =>
    intro u hu
    simp only [debounceStates, debounceCallStates, List.mem_cons, List.mem_append,
      List.cons_append, List.nil_append] at hu
    rcases hu with rfl | rfl | rfl | rfl | hu
    · exact idleOrArmed_length_le _ hs
    · exact idleOrArmed_length_le _ (idleOrArmed_fireDue _ _ hs)
    · rw [idleOrArmed_clear _ (idleOrArmed_fireDue _ _ hs)]
      simp
    · exact idleOrArmed_length_le _ (idleOrArmed_call delay _ _ hs)
    · exact ih _ (idleOrArmed_call delay _ _ hs) u hu

theorem debounceCalls_armed {α : Type} (delay : ℕ) (calls : List (ℕ × α)) (s : Debounced α)
    (k t₀ : ℕ) (a₀ : α) (hp : s.pending = [(k, t₀ + delay, a₀)]) (ht : s.timeout = some k)
    (hinc : StrictlyIncreasing ((t₀, a₀) :: calls)) :
    (fireAll (debounceCalls delay calls s)).runs =
      s.runs ++ expectedRuns delay ((t₀, a₀) :: calls) := by
  induction calls generalizing s k t₀ a₀ with
  | nil => simp [debounceCalls, fireAll, hp, expectedRuns]
  | cons d cs ih =>
    have hs : IdleOrArmed s := Or.inr ⟨k, _, a₀, hp, ht⟩
    obtain ⟨h1, h2, h3⟩ := debounceCall_pending delay s d hs
    have hinc' : StrictlyIncreasing (d :: cs) := (List.pairwise_cons.mp hinc).2
    have hstep := ih (debounceCall delay s d) _ d.1 d.2 h1 h2 hinc'
    have hall : ∀ e ∈ d :: cs, d.1 ≤ e.1 := by
      intro e he
      rcases List.mem_cons.mp he with rfl | he
      · exact le_refl _
      · exact ((List.pairwise_cons.mp hinc').1 e he).le
    show (fireAll (debounceCalls delay cs (debounceCall delay s d))).runs = _
    rw [hstep, h3]
    by_cases hd : d.1 < t₀ + delay
    · have hany : (d :: cs).any (fun e => decide (e.1 < t₀ + delay)) = true := by
        simp [hd]
      have hruns : (fireDue d.1 s).runs = s.runs := by
        simp [fireDue, hp, Nat.not_le.mpr hd]
      rw [hruns]
      conv_rhs => rw [expectedRuns]
      simp only [hany, if_true, List.nil_append]
    · have hany : (d :: cs).any (fun e => decide (e.1 < t₀ + delay)) = false := by
        rw [List.any_eq_false]
        intro e he
        have := hall e he
        simp only [decide_eq_true_eq]
        omega
      have hruns : (fireDue d.1 s).runs = s.runs ++ [(t₀ + delay, a₀)] := by
        simp [fireDue, hp, Nat.not_lt.mp hd]
      rw [hruns]
      conv_rhs => rw [expectedRuns]
      simp [hany]

theorem debounce_eq_expectedRuns {α : Type} (delay : ℕ) (calls : List (ℕ × α))
    (hinc : StrictlyIncreasing calls) : debounce delay calls = expectedRuns delay calls := by
  cases calls with
  | nil => simp [debounce, debounceCalls, fireAll, Debounced.fresh, expectedRuns]
  | cons c cs =>
    have hs : IdleOrArmed (Debounced.fresh α) := Or.inl rfl
    obtain ⟨h1, h2, h3⟩ := debounceCall_pending delay (Debounced.fresh α) c hs
    have hrun := debounceCalls_armed delay cs (debounceCall delay (Debounced.fresh α) c) _ c.1
      c.2 h1 h2 hinc
    show (fireAll (debounceCalls delay cs (debounceCall delay (Debounced.fresh α) c))).runs = _
    rw [hrun, h3]
    simp [fireDue, Debounced.fresh]

theorem expectedRuns_burst {α : Type} (gap : ℕ) (calls : List (ℕ × α)) (hne : calls ≠ [])
    (hgap : GapsBelow gap calls) :
    expectedRuns gap calls = [((calls.getLast hne).1 + gap, (calls.getLast hne).2)] := by
  induction calls with
  | nil => exact absurd rfl hne
  | cons c cs ih =>
    cases cs with
    | nil => simp [expectedRuns]
    | cons d ds =>
      have hcd : d.1 < c.1 + gap := (List.chain'_cons.mp hgap).1
      have htail : GapsBelow gap (d :: ds) := (List.chain'_cons.mp hgap).2
      rw [expectedRuns]
      have hany : (d :: ds).any (fun e => decide (e.1 < c.1 + gap)) = true := by
        simp [hcd]
      simp only [hany, if_true, List.nil_append]
      rw [ih (List.cons_ne_nil _ _) htail]
      simp [List.getLast_cons]

/-- Counterexample to C4 as stated: calls at 0, 50, 100 and 300 ms, the calls numbered 0
to 3, with a delay of 250 ms. The wrapped function runs once, but for call 3 (made at
300 ms) at 550 ms, not for call 2 (made at 100 ms) at 350 ms: the call at 300 ms comes
200 ms after the one at 100 ms and clears its timer. -/
theorem debounce_scenario_not_at_350 :
    debounce 250 [(0, 0), (50, 1), (100, 2), (300, 3)] = [(550, 3)] ∧
    debounce 250 [(0, 0), (50, 1), (100, 2), (300, 3)] ≠ [(350, 2)] := by
  constructor <;> decide

/-- **C4, amended.** With a delay of 250 ms, calls at 0, 50, 100 and 300 ms cause exactly
one run of the wrapped function: the one scheduled by the call at 300 ms, with that call's
arguments, at 550 ms. -/
theorem debounce_scenario {α : Type} (a₀ a₁ a₂ a₃ : α) :
    debounce 250 [(0, a₀), (50, a₁), (100, a₂), (300, a₃)] = [(550, a₃)] ∧
    (debounce 250 [(0, a₀), (50, a₁), (100, a₂), (300, a₃)]).length = 1 := by
  constructor <;> simp [debounce, debounceCalls, debounceCall, debounceBody, fireDue, fireAll,
    setTimeout, clearTimeout, Debounced.fresh]

/-- **C5.** For every delay and all calls of a debounced function at strictly increasing
times: in every state passed through at most one timer is pending, and the wrapped
function runs exactly once for each call that is not followed by another call less than
`delay` later, at that call's time plus `delay` and with that call's arguments. For a
non-empty burst whose consecutive gaps are all below 250 ms, `debounce(f, 250)` runs `f`
exactly once, 250 ms after the last call, with the last call's arguments. -/
theorem debounce_last_takes_effect {α : Type} (delay : ℕ) (calls : List (ℕ × α))
    (hinc : StrictlyIncreasing calls) :
    (∀ u ∈ debounceStates delay calls (Debounced.fresh α), u.pending.length ≤ 1) ∧
    debounce delay calls = expectedRuns delay calls ∧
    ∀ hne : calls ≠ [], GapsBelow 250 calls →
      debounce 250 calls = [((calls.getLast hne).1 + 250, (calls.getLast hne).2)] := by
  refine ⟨debounceStates_pending delay calls _ (Or.inl rfl),
    debounce_eq_expectedRuns delay calls hinc, ?_⟩
  intro hne hgap
  rw [debounce_eq_expectedRuns 250 calls hinc]
  exact expectedRuns_burst 250 calls hne hgap

/-- Witness of C5: calls at 0, 50, 100, 350 and 1000 ms with a delay of 250 ms. -/
theorem debounce_last_takes_effect_witness :
    StrictlyIncreasing [(0, 0), (50, 1), (100, 2), (350, 3), (1000, 4)] ∧
    ((∀ u ∈ debounceStates 250 [(0, 0), (50, 1), (100, 2), (350, 3), (1000, 4)]
        (Debounced.fresh ℕ), u.pending.length ≤ 1) ∧
    debounce 250 [(0, 0), (50, 1), (100, 2), (350, 3), (1000, 4)] =
      expectedRuns 250 [(0, 0), (50, 1), (100, 2), (350, 3), (1000, 4)] ∧
    ∀ hne : [(0, 0), (50, 1), (100, 2), (350, 3), (1000, 4)] ≠ [],
      GapsBelow 250 [(0, 0), (50, 1), (100, 2), (350, 3), (1000, 4)] →
      debounce 250 [(0, 0), (50, 1), (100, 2), (350, 3), (1000, 4)] =
        [((List.getLast [(0, 0), (50, 1), (100, 2), (350, 3), (1000, 4)] hne).1 + 250,
          (List.getLast [(0, 0), (50, 1), (100, 2), (350, 3), (1000, 4)] hne).2)]) :=
  ⟨by simp [StrictlyIncreasing],
    debounce_last_takes_effect 250 [(0, 0), (50, 1), (100, 2), (350, 3), (1000, 4)]
      (by simp [StrictlyIncreasing])⟩


end CaseStudyPremium
